import Mathlib

/-!
# Transaction ledger of `src/App.jsx`

A shallow embedding of the logic of the `App` component: the balance fold and
the date sort of `fetchTransactions`, and the validated writes of
`addTransaction`, `updateTransaction` and `deleteTransaction`.

Modelling conventions.

* A JavaScript number is `JSNum`: `NaN`, one of the two infinities, or a finite
  value held as a rational.  Every arithmetic operation and `parseFloat` round
  their exact result to binary64 (round to nearest, ties to even, gradual
  underflow, overflow to an infinity) with `roundDouble`.  The sign of a zero
  is not kept: `-0` and `0` are one value, as they are for `==`, `>` and `+`.
* A `date` field is represented by the time value that `new Date(·)` gives
  it: an integral number of milliseconds, or `NaN` for an invalid date.
* The Firestore collection is a list of documents; the state hooks of the
  component and the collection together form a `World`.  Asynchronous calls
  are run to completion in program order.
-/

namespace TransactionList

/-! ## Numbers -/

/-- A JavaScript number: `NaN`, `Infinity`, `-Infinity` or a finite value. -/
inductive JSNum where
  | nan : JSNum
  | pinf : JSNum
  | ninf : JSNum
  | fin (q : ℚ) : JSNum
  deriving DecidableEq, Repr

/-- The power `b ^ s` of a natural base with an integer exponent. -/
def powInt (b : ℕ) (s : ℤ) : ℚ :=
  if 0 ≤ s then ((b ^ s.toNat : ℕ) : ℚ) else 1 / ((b ^ (-s).toNat : ℕ) : ℚ)

/-- The natural number nearest to `y ≥ 0`, the even one of the two when `y`
lies half way. -/
def roundHalfEven (y : ℚ) : ℕ :=
  let f := ⌊y⌋₊
  let d := y - f
  if d < 1 / 2 then f
  else if 1 / 2 < d then f + 1
  else if f % 2 = 0 then f else f + 1

/-- The position of the leading binary digit of `n`: the largest `k` with
`2 ^ k ≤ n` when `fuel` is at least `n`. -/
def bitLog : ℕ → ℕ → ℕ
  | 0, _ => 0
  | fuel + 1, n => if n < 2 then 0 else bitLog fuel (n / 2) + 1

/-- The binary exponent of a positive rational: the `e` with
`2 ^ e ≤ a < 2 ^ (e + 1)`. -/
def floorLog2 (a : ℚ) : ℤ :=
  let e0 : ℤ := (bitLog a.num.natAbs a.num.natAbs : ℤ) - (bitLog a.den a.den : ℤ)
  if a < powInt 2 e0 then e0 - 1 else e0

/-- The magnitude `a > 0` rounded to a multiple of its unit in the last place:
53 significant bits at the exponent of `a`, and no exponent below `-1022`. -/
def roundMagnitude (a : ℚ) : ℚ :=
  let s := max (floorLog2 a) (-1022) - 52
  (roundHalfEven (a / powInt 2 s) : ℚ) * powInt 2 s

/-- The binary64 value of the exact result `q`: round to nearest, ties to even;
a magnitude that rounds to `2 ^ 1024` or more is an infinity. -/
def roundDouble (q : ℚ) : JSNum :=
  if q = 0 then JSNum.fin 0
  else
    let r := roundMagnitude |q|
    if powInt 2 1024 ≤ r then (if 0 < q then JSNum.pinf else JSNum.ninf)
    else JSNum.fin (if 0 < q then r else -r)

namespace JSNum

/-- JavaScript `a + b` on numbers. -/
def add : JSNum → JSNum → JSNum
  | fin a, fin b => roundDouble (a + b)
  | nan, _ => nan
  | _, nan => nan
  | pinf, ninf => nan
  | ninf, pinf => nan
  | pinf, _ => pinf
  | _, pinf => pinf
  | ninf, _ => ninf
  | _, ninf => ninf

/-- JavaScript `a - b` on numbers. -/
def sub : JSNum → JSNum → JSNum
  | fin a, fin b => roundDouble (a - b)
  | nan, _ => nan
  | _, nan => nan
  | pinf, pinf => nan
  | ninf, ninf => nan
  | pinf, _ => pinf
  | _, ninf => pinf
  | ninf, _ => ninf
  | _, pinf => ninf

instance : Zero JSNum := ⟨fin 0⟩

instance : Add JSNum := ⟨add⟩

instance : Sub JSNum := ⟨sub⟩

/-- JavaScript `a < b`: false as soon as one side is `NaN`. -/
def lt : JSNum → JSNum → Prop
  | fin a, fin b => a < b
  | ninf, fin _ => True
  | ninf, pinf => True
  | fin _, pinf => True
  | _, _ => False

/-- JavaScript `a <= b`: false as soon as one side is `NaN`. -/
def le : JSNum → JSNum → Prop
  | fin a, fin b => a ≤ b
  | ninf, fin _ => True
  | ninf, pinf => True
  | fin _, pinf => True
  | ninf, ninf => True
  | pinf, pinf => True
  | _, _ => False

instance : LT JSNum := ⟨lt⟩

instance : LE JSNum := ⟨le⟩

instance decLt : (a b : JSNum) → Decidable (a < b)
  | fin a, fin b => inferInstanceAs (Decidable (a < b))
  | ninf, fin _ => isTrue trivial
  | ninf, pinf => isTrue trivial
  | fin _, pinf => isTrue trivial
  | nan, _ => isFalse (fun h => h)
  | pinf, _ => isFalse (fun h => h)
  | ninf, nan => isFalse (fun h => h)
  | ninf, ninf => isFalse (fun h => h)
  | fin _, nan => isFalse (fun h => h)
  | fin _, ninf => isFalse (fun h => h)

instance decLe : (a b : JSNum) → Decidable (a ≤ b)
  | fin a, fin b => inferInstanceAs (Decidable (a ≤ b))
  | ninf, fin _ => isTrue trivial
  | ninf, pinf => isTrue trivial
  | fin _, pinf => isTrue trivial
  | ninf, ninf => isTrue trivial
  | pinf, pinf => isTrue trivial
  | nan, _ => isFalse (fun h => h)
  | pinf, nan => isFalse (fun h => h)
  | pinf, ninf => isFalse (fun h => h)
  | pinf, fin _ => isFalse (fun h => h)
  | ninf, nan => isFalse (fun h => h)
  | fin _, nan => isFalse (fun h => h)
  | fin _, ninf => isFalse (fun h => h)

/-- JavaScript `x == 0` on a number. -/
def eqZero : JSNum → Bool
  | fin q => decide (q = 0)
  | _ => false

/-- JavaScript `isNaN`. -/
def isNaN : JSNum → Bool
  | nan => true
  | _ => false

/-- JavaScript `Number.isInteger`. -/
def isInteger : JSNum → Bool
  | fin q => decide (q.den = 1)
  | _ => false

/-- The exact value of a finite number (`0` for the three others). -/
def toRat : JSNum → ℚ
  | fin q => q
  | _ => 0

end JSNum

/-- The time value of a `Date` object: an integral number of milliseconds, or
`NaN` for an invalid date. -/
inductive TimeValue where
  | invalid : TimeValue
  | ms (t : ℤ) : TimeValue
  deriving DecidableEq, Repr

namespace TimeValue

/-- The number a `Date` object converts to in an arithmetic expression. -/
def toNumber : TimeValue → JSNum
  | invalid => JSNum.nan
  | ms t => JSNum.fin t

/-- The test `isNaN(date)`: the date is invalid. -/
def isNaN : TimeValue → Bool
  | invalid => true
  | ms _ => false

/-- JavaScript `a < b` on two dates. -/
def lt : TimeValue → TimeValue → Prop
  | ms a, ms b => a < b
  | _, _ => False

/-- JavaScript `a <= b` on two dates. -/
def le : TimeValue → TimeValue → Prop
  | ms a, ms b => a ≤ b
  | _, _ => False

instance : LT TimeValue := ⟨lt⟩

instance : LE TimeValue := ⟨le⟩

instance decLt : (a b : TimeValue) → Decidable (a < b)
  | ms a, ms b => inferInstanceAs (Decidable (a < b))
  | invalid, _ => isFalse (fun h => h)
  | ms _, invalid => isFalse (fun h => h)

instance decLe : (a b : TimeValue) → Decidable (a ≤ b)
  | ms a, ms b => inferInstanceAs (Decidable (a ≤ b))
  | invalid, _ => isFalse (fun h => h)
  | ms _, invalid => isFalse (fun h => h)

end TimeValue

/-! ## The built-in `parseFloat` -/

/-- Code points of the ECMAScript `WhiteSpace` and `LineTerminator` classes. -/
def isJSWhiteSpace (c : Char) : Bool :=
  let n := c.toNat
  n == 9 || n == 10 || n == 11 || n == 12 || n == 13 || n == 32 || n == 160 ||
  n == 5760 || (8192 ≤ n && n ≤ 8202) || n == 8232 || n == 8233 || n == 8239 ||
  n == 8287 || n == 12288 || n == 65279

/-- Value of a run of decimal digits, most significant first. -/
def digitsValue (ds : List Char) : Nat :=
  ds.foldl (fun acc c => 10 * acc + (c.toNat - 48)) 0

/-- The `ExponentPart` at the head of `cs`, if there is one: `e` or `E`, an
optional sign and at least one digit.  No exponent part counts as `0`. -/
def exponentPart (cs : List Char) : Int :=
  match cs with
  | [] => 0
  | e :: rest =>
    if e.toNat == 101 || e.toNat == 69 then
      match rest with
      | [] => 0
      | s :: rest2 =>
        if s.toNat == 45 then
          (if (rest2.takeWhile Char.isDigit).isEmpty then 0
           else - (digitsValue (rest2.takeWhile Char.isDigit) : Int))
        else if s.toNat == 43 then (digitsValue (rest2.takeWhile Char.isDigit) : Int)
        else (digitsValue (rest.takeWhile Char.isDigit) : Int)
    else 0

/-- The number denoted by the longest prefix of `cs` that is an unsigned
decimal literal (`Infinity`, or `12`, `12.`, `12.5`, `.5`, each with an
optional exponent), rounded to binary64; `NaN` when no prefix is one. -/
def unsignedLiteral (cs : List Char) : JSNum :=
  if cs.take 8 = "Infinity".toList then JSNum.pinf else
  let intDigits := cs.takeWhile Char.isDigit
  let rest := cs.dropWhile Char.isDigit
  let hasDot := match rest with
    | c :: _ => c.toNat == 46
    | [] => false
  let fracDigits := if hasDot then rest.tail.takeWhile Char.isDigit else []
  let rest2 := if hasDot then rest.tail.dropWhile Char.isDigit else rest
  if intDigits.isEmpty && fracDigits.isEmpty then JSNum.nan
  else
    let mantissa : ℚ :=
      (digitsValue intDigits : ℚ) +
        (digitsValue fracDigits : ℚ) / ((10 ^ fracDigits.length : ℕ) : ℚ)
    roundDouble (mantissa * powInt 10 (exponentPart rest2))

/-- ECMAScript `parseFloat` on a string: leading white space is skipped, then
the longest prefix that is a signed decimal literal is read and rounded to
binary64; `NaN` when there is none. -/
def parseFloatString (s : String) : JSNum :=
  match s.toList.dropWhile isJSWhiteSpace with
  | [] => JSNum.nan
  | c :: cs =>
    if c.toNat == 45 then
      (match unsignedLiteral cs with
       | JSNum.fin q => JSNum.fin (-q)
       | JSNum.pinf => JSNum.ninf
       | JSNum.ninf => JSNum.pinf
       | JSNum.nan => JSNum.nan)
    else if c.toNat == 43 then unsignedLiteral cs
    else unsignedLiteral (c :: cs)

/-! ## Data model -/

/-- A value of the `amount` hook: the text of the number input
(`setAmount(e.target.value)`), or the number that the Edit button copies from
a transaction (`setAmount(transaction.amount)`). -/
inductive FormValue where
  | str (s : String) : FormValue
  | num (n : JSNum) : FormValue
  deriving DecidableEq, Repr

/-- JavaScript `!v`: the empty string, `0` and `NaN` are falsy. -/
def FormValue.isFalsy : FormValue → Bool
  | FormValue.str s => decide (s = "")
  | FormValue.num n => n.eqZero || n.isNaN

/-- JavaScript `parseFloat(v)`: a string is parsed; a number is printed and
parsed back, which returns it. -/
def parseFloat : FormValue → JSNum
  | FormValue.str s => parseFloatString s
  | FormValue.num n => n

/-- A document of the `transactions` collection together with its id. -/
structure Transaction where
  id : String
  amount : JSNum
  description : String
  type : String
  date : TimeValue
  deriving DecidableEq, Repr

/-- The Firestore collection `db` and the seven state hooks of `App`. -/
structure World where
  db : List Transaction
  transactions : List Transaction
  amount : FormValue
  description : String
  type : String
  editingId : Option String
  balance : JSNum
  error : String
  deriving DecidableEq, Repr

/-- The component as first rendered over a collection `db`, before the
effect has fetched anything: the initial values of the hooks. -/
def initialWorld (db : List Transaction) : World :=
  { db := db, transactions := [], amount := FormValue.str "", description := "",
    type := "Income", editingId := none, balance := 0, error := "" }

/-! ## The built-in `Array.prototype.sort` -/

/-- Insert `x`, which stood before every element of the sorted list, at its
place: after the elements that `comparefn` puts strictly before it.  A `NaN`
result counts as `0`. -/
def insertSorted {α : Type} (comparefn : α → α → JSNum) (x : α) : List α → List α
  | [] => [x]
  | y :: ys =>
    if comparefn x y > 0 then y :: insertSorted comparefn x ys
    else x :: y :: ys

/-- The call `data.sort(comparefn)`.  ECMAScript requires the sort to be
stable and to order by the sign of `comparefn`; it is modelled as the stable
insertion sort. -/
def arraySort {α : Type} (comparefn : α → α → JSNum) : List α → List α
  | [] => []
  | x :: xs => insertSorted comparefn x (arraySort comparefn xs)

/-! ## The component -/

/-- The comparator `(a, b) => new Date(b.date) - new Date(a.date)`. -/
def dateDescending (a b : Transaction) : JSNum :=
  b.date.toNumber - a.date.toNumber

/-- The reduce of `fetchTransactions`: Income adds the amount, anything else
subtracts it, starting from `0`. -/
def totalBalance (sortedData : List Transaction) : JSNum :=
  sortedData.foldl
    (fun acc transaction =>
      if transaction.type = "Income" then acc + transaction.amount
      else acc - transaction.amount)
    0

/-- The function `fetchTransactions`: read the collection, sort it by date,
publish the sorted list and its balance. -/
def fetchTransactions (w : World) : World :=
  let data := w.db
  let sortedData := arraySort dateDescending data
  { w with transactions := sortedData, balance := totalBalance sortedData }

/-- The message shown for a missing field. -/
abbrev MissingField : String := "Amount and description are required!"

/-- The message shown for a zero amount. -/
abbrev ZeroAmount : String := "Cannot credit 0 amount"

/-- The message shown for an expense above the balance. -/
abbrev InsufficientBalance : String := "Insufficient balance to update this expense!"

/-- The call `setError(msg)`. -/
def setError (w : World) (msg : String) : World :=
  { w with error := msg }

/-- The call `addDoc(collection(db, 'transactions'), doc)`: the store assigns
the id `newId` to the new document.  The list stands for the documents in the
order `getDocs` returns them; the new document is put last. -/
def addDoc (db : List Transaction) (newId : String) (amount : JSNum)
    (description type : String) (date : TimeValue) : List Transaction :=
  db ++ [{ id := newId, amount := amount, description := description, type := type,
           date := date }]

/-- The call `updateDoc(doc(db, 'transactions', id), {amount, description, type})`:
the three fields of the document `id` are overwritten; the promise rejects
(`none`) when there is no such document. -/
def updateDoc (db : List Transaction) (id : String) (amount : JSNum)
    (description type : String) : Option (List Transaction) :=
  if db.any (fun t => t.id = id) then
    some (db.map (fun t =>
      if t.id = id then { t with amount := amount, description := description, type := type }
      else t))
  else none

/-- The call `deleteDoc(doc(db, 'transactions', id))`. -/
def deleteDoc (db : List Transaction) (id : String) : List Transaction :=
  db.filter (fun t => t.id ≠ id)

/-- The function `addTransaction`.  `newId` is the id the store gives the new
document and `now` the time value of `new Date()`. -/
def addTransaction (w : World) (newId : String) (now : ℤ) : World :=
  if w.amount.isFalsy ∨ w.description = "" then
    setError w MissingField
  else
    let parsedAmount := parseFloat w.amount
    if (w.type = "Expense" ∧ parsedAmount > w.balance) ∨ parsedAmount.eqZero then
      if parsedAmount.eqZero then setError w ZeroAmount
      else setError w InsufficientBalance
    else
      let w1 := { w with
        db := addDoc w.db newId parsedAmount w.description w.type (TimeValue.ms now) }
      let w2 := fetchTransactions w1
      { w2 with amount := FormValue.str "", description := "", type := "Income", error := "" }

/-- The function `updateTransaction`. -/
def updateTransaction (w : World) (id : String) : World :=
  if w.amount.isFalsy ∨ w.description = "" then
    setError w MissingField
  else
    let parsedAmount := parseFloat w.amount
    if (w.type = "Expense" ∧ parsedAmount > w.balance) ∨
        (w.type = "Expense" ∧ parsedAmount.eqZero) then
      let w1 := if parsedAmount.eqZero then setError w ZeroAmount else w
      setError w1 InsufficientBalance
    else
      match updateDoc w.db id parsedAmount w.description w.type with
      | none => w
      | some db1 =>
        let w2 := fetchTransactions { w with db := db1 }
        { w2 with editingId := none, amount := FormValue.str "", description := "",
                  type := "Income", error := "" }

/-- The function `deleteTransaction`. -/
def deleteTransaction (w : World) (id : String) : World :=
  fetchTransactions { w with db := deleteDoc w.db id }

/-- The click handler of the Edit button of `transaction`. -/
def beginEdit (w : World) (transaction : Transaction) : World :=
  { w with editingId := some transaction.id, amount := FormValue.num transaction.amount,
           description := transaction.description, type := transaction.type }

/-! ## The form -/

/-- The two options of the `select` element. -/
inductive TypeOption where
  | Income : TypeOption
  | Expense : TypeOption
  deriving DecidableEq, Repr

/-- The `value` attribute of an option. -/
def TypeOption.value : TypeOption → String
  | TypeOption.Income => "Income"
  | TypeOption.Expense => "Expense"

/-- What the user types into the form before pressing a button: the three
`onChange` handlers. -/
structure FormInput where
  amount : String
  description : String
  type : TypeOption
  deriving DecidableEq, Repr

/-- The three `onChange` handlers applied to `inp`. -/
def fillForm (w : World) (inp : FormInput) : World :=
  { w with amount := FormValue.str inp.amount, description := inp.description,
           type := inp.type.value }

/-! ## Notions used in the statements -/

/-- The exact sum of the amounts of the transactions of `l` whose type is `ty`. -/
def exactSum (ty : String) (l : List Transaction) : ℚ :=
  ((l.filter (fun t => t.type = ty)).map (fun t => t.amount.toRat)).sum

/-- The exact amount of a transaction with the sign the fold gives it: plus
for an Income, minus for anything else. -/
def signedAmount (t : Transaction) : ℚ :=
  if t.type = "Income" then t.amount.toRat else - t.amount.toRat

/-- The exact signed total of the amounts of `l`. -/
def exactBalance (l : List Transaction) : ℚ :=
  (l.map signedAmount).sum

/-- The exact total of the absolute values of the amounts of `l`. -/
def absTotal (l : List Transaction) : ℚ :=
  (l.map (fun t => |t.amount.toRat|)).sum

/-! ## Sequences of additions -/

/-- One submission through the Add button: the form is filled in,
`addTransaction` runs with the id and the time it is given, and the list is
fetched again. -/
def addStep (w : World) (s : FormInput × String × ℤ) : World :=
  fetchTransactions (addTransaction (fillForm w s.1) s.2.1 s.2.2)

/-- A sequence of submissions through the Add button. -/
def runAdds (w : World) (steps : List (FormInput × String × ℤ)) : World :=
  steps.foldl addStep w

/-- The exact total of the amounts that a sequence of submissions parses to. -/
def stepsTotal (steps : List (FormInput × String × ℤ)) : ℚ :=
  (steps.map (fun s => (parseFloatString s.1.amount).toRat)).sum

/-- The published balance is the exact signed total of the store, every stored
amount is an integer, and the total is not negative. -/
def ExactInv (w : World) : Prop :=
  w.balance = JSNum.fin (exactBalance w.db) ∧
  (∀ t ∈ w.db, t.amount.isInteger = true) ∧
  0 ≤ exactBalance w.db

/-! ## Sample data -/

/-- An income of 100. -/
def sampleIncome : Transaction :=
  { id := "a1", amount := JSNum.fin 100, description := "Salary", type := "Income",
    date := TimeValue.ms 1000 }

/-- A later expense of 80. -/
def sampleExpense : Transaction :=
  { id := "b2", amount := JSNum.fin 80, description := "Rent", type := "Expense",
    date := TimeValue.ms 2000 }

/-- A collection of two documents: the income and the expense. -/
def sampleDb : List Transaction :=
  [sampleIncome, sampleExpense]

/-- The component after its first fetch of `sampleDb`. -/
def sampleWorld : World := fetchTransactions (initialWorld sampleDb)

/-- The component after the income of `sampleDb` has been deleted: only the
expense of 80 is left and the balance is -80. -/
def overdrawnWorld : World := deleteTransaction sampleWorld "a1"

/-- An expense of 0 typed into the form of `overdrawnWorld`. -/
def zeroExpenseForm : World :=
  fillForm overdrawnWorld { amount := "0", description := "Fee", type := TypeOption.Expense }

/-- An expense of 200 typed into the form of `sampleWorld`, whose balance is 20. -/
def rentForm : World :=
  fillForm sampleWorld { amount := "200", description := "Rent", type := TypeOption.Expense }

/-- An income of 0 typed into the form of `sampleWorld`. -/
def zeroIncomeForm : World :=
  fillForm sampleWorld { amount := "0", description := "Gift", type := TypeOption.Income }

/-- The expense of `sampleWorld` under edit, its amount retyped as 0. -/
def zeroExpenseEdit : World :=
  fillForm (beginEdit sampleWorld sampleExpense)
    { amount := "0", description := "Rent", type := TypeOption.Expense }

/-- The income of `sampleWorld` under edit, its amount retyped as 0. -/
def zeroIncomeEdit : World :=
  fillForm (beginEdit sampleWorld sampleIncome)
    { amount := "0", description := "Salary", type := TypeOption.Income }

/-- An income of -5 typed into the form of `sampleWorld`. -/
def negativeIncomeForm : World :=
  fillForm sampleWorld { amount := "-5", description := "Refund", type := TypeOption.Income }

/-- The component over an empty collection, after its first fetch. -/
def emptyLedger : World := fetchTransactions (initialWorld [])

/-- An income of 100 typed into the form of the empty ledger. -/
def salaryForm : World :=
  fillForm emptyLedger { amount := "100", description := "Salary", type := TypeOption.Income }

/-- An expense of 30 typed into the form once the salary has been added. -/
def foodForm : World :=
  fillForm (fetchTransactions (addTransaction salaryForm "s1" 1000))
    { amount := "30", description := "Food", type := TypeOption.Expense }

/-- The expense of `sampleWorld` under edit, its amount retyped as 10. -/
def smallExpenseEdit : World :=
  fillForm (beginEdit sampleWorld sampleExpense)
    { amount := "10", description := "Rent", type := TypeOption.Expense }

/-- The expense of `sampleWorld` under edit, its amount retyped as 50. -/
def lowerExpenseEdit : World :=
  fillForm (beginEdit sampleWorld sampleExpense)
    { amount := "50", description := "Rent", type := TypeOption.Expense }

/-- A collection of three incomes, of 0.1, 0.2 and 0.3, the latest last. -/
def tenthsDb : List Transaction :=
  [ { id := "t1", amount := parseFloatString "0.1", description := "Tip", type := "Income",
      date := TimeValue.ms 1000 },
    { id := "t2", amount := parseFloatString "0.2", description := "Tip", type := "Income",
      date := TimeValue.ms 2000 },
    { id := "t3", amount := parseFloatString "0.3", description := "Tip", type := "Income",
      date := TimeValue.ms 3000 } ]

/-- An income of 0.3 typed into the form after incomes of 0.1 and 0.2 have been
added to the empty ledger. -/
def tenthsForm : World :=
  fillForm
    (runAdds emptyLedger
      [ ({ amount := "0.1", description := "Tip", type := TypeOption.Income }, "t1", 1000),
        ({ amount := "0.2", description := "Tip", type := TypeOption.Income }, "t2", 2000) ])
    { amount := "0.3", description := "Tip", type := TypeOption.Income }

/-- Four submissions: Income 0.1, Income 0.2, Income 0.1 and Expense 0.4. -/
def tenthsSteps : List (FormInput × String × ℤ) :=
  [ ({ amount := "0.1", description := "Tip", type := TypeOption.Income }, "t1", 1000),
    ({ amount := "0.2", description := "Tip", type := TypeOption.Income }, "t2", 2000),
    ({ amount := "0.1", description := "Tip", type := TypeOption.Income }, "t3", 3000),
    ({ amount := "0.4", description := "Bill", type := TypeOption.Expense }, "t4", 4000) ]

/-- Three submissions: Income 100, Expense 30, and an Expense 200 that is
rejected. -/
def sampleSteps : List (FormInput × String × ℤ) :=
  [ ({ amount := "100", description := "Salary", type := TypeOption.Income }, "s1", 1000),
    ({ amount := "30", description := "Food", type := TypeOption.Expense }, "f2", 2000),
    ({ amount := "200", description := "Rent", type := TypeOption.Expense }, "r3", 3000) ]


/-! ## Theorems -/

/-! ### Rounding -/

theorem powInt_pos (s : ℤ) : 0 < powInt 2 s := by
  unfold powInt
  split
  · positivity
  · apply one_div_pos.mpr
    positivity

theorem powInt_of_nonneg (k : ℕ) : powInt 2 (k : ℤ) = ((2 ^ k : ℕ) : ℚ) := by
  unfold powInt
  rw [if_pos (Int.natCast_nonneg k), Int.toNat_natCast]

theorem powInt_of_nonpos (k : ℕ) : powInt 2 (-(k : ℤ)) = 1 / ((2 ^ k : ℕ) : ℚ) := by
  unfold powInt
  by_cases hk : k = 0
  · subst hk; simp
  · have : ¬ (0 : ℤ) ≤ -(k : ℤ) := by omega
    rw [if_neg this, neg_neg, Int.toNat_natCast]

theorem roundHalfEven_natCast (n : ℕ) : roundHalfEven (n : ℚ) = n := by
  unfold roundHalfEven
  simp

theorem le_roundHalfEven (y : ℚ) : ⌊y⌋₊ ≤ roundHalfEven y := by
  unfold roundHalfEven
  simp only
  split
  · exact le_refl _
  · split
    · exact Nat.le_succ _
    · split
      · exact le_refl _
      · exact Nat.le_succ _

theorem pow_bitLog_le (fuel n : ℕ) (hn : 1 ≤ n) : 2 ^ bitLog fuel n ≤ n := by
  induction fuel generalizing n with
  | zero => simpa [bitLog] using hn
  | succ f ih =>
    unfold bitLog
    split
    · simpa using hn
    · rename_i h2
      have h1 : 1 ≤ n / 2 := by omega
      have := ih (n / 2) h1
      rw [pow_succ]
      omega

theorem floorLog2_natCast (n : ℕ) (hn : 1 ≤ n) : floorLog2 (n : ℚ) = (bitLog n n : ℤ) := by
  unfold floorLog2
  have hb : bitLog 1 1 = 0 := by decide
  simp only [Rat.num_natCast, Rat.den_natCast, Int.natAbs_ofNat, hb, Nat.cast_zero, sub_zero]
  rw [if_neg]
  rw [powInt_of_nonneg, not_lt]
  exact_mod_cast pow_bitLog_le n n hn

theorem roundMagnitude_natCast (n : ℕ) (h1 : 1 ≤ n) (h2 : n < 2 ^ 53) :
    roundMagnitude (n : ℚ) = n := by
  unfold roundMagnitude
  rw [floorLog2_natCast n h1]
  have hL : bitLog n n ≤ 52 := by
    by_contra hc
    have hle : 2 ^ 53 ≤ 2 ^ bitLog n n := Nat.pow_le_pow_right (by norm_num) (by omega)
    have := pow_bitLog_le n n h1
    omega
  have hs : max (bitLog n n : ℤ) (-1022) - 52 = -((52 - bitLog n n : ℕ) : ℤ) := by
    rw [max_eq_left (by omega)]
    omega
  simp only [hs]
  rw [powInt_of_nonpos]
  have hpos : (0 : ℚ) < ((2 ^ (52 - bitLog n n) : ℕ) : ℚ) := by
    positivity
  have hy : (n : ℚ) / (1 / ((2 ^ (52 - bitLog n n) : ℕ) : ℚ))
      = ((n * 2 ^ (52 - bitLog n n) : ℕ) : ℚ) := by
    rw [div_div_eq_mul_div, div_one]
    push_cast
    ring
  rw [hy, roundHalfEven_natCast]
  push_cast
  field_simp

theorem roundMagnitude_nonneg (a : ℚ) : 0 ≤ roundMagnitude a := by
  unfold roundMagnitude
  exact mul_nonneg (Nat.cast_nonneg _) (le_of_lt (powInt_pos _))

theorem roundMagnitude_pos_natCast (n : ℕ) (h1 : 1 ≤ n) : 0 < roundMagnitude (n : ℚ) := by
  unfold roundMagnitude
  rw [floorLog2_natCast n h1]
  refine mul_pos ?_ (powInt_pos _)
  have hs : max (bitLog n n : ℤ) (-1022) - 52 = (bitLog n n : ℤ) - 52 := by
    rw [max_eq_left (by omega)]
  simp only [hs]
  have hle : powInt 2 ((bitLog n n : ℤ) - 52) ≤ (n : ℚ) := by
    by_cases hc : 52 ≤ bitLog n n
    · have : ((bitLog n n : ℤ) - 52) = ((bitLog n n - 52 : ℕ) : ℤ) := by omega
      rw [this, powInt_of_nonneg]
      have h3 : 2 ^ (bitLog n n - 52) ≤ 2 ^ bitLog n n :=
        Nat.pow_le_pow_right (by norm_num) (by omega)
      exact_mod_cast le_trans h3 (pow_bitLog_le n n h1)
    · have : ((bitLog n n : ℤ) - 52) = -((52 - bitLog n n : ℕ) : ℤ) := by omega
      rw [this, powInt_of_nonpos]
      have hp : (1 : ℚ) ≤ ((2 ^ (52 - bitLog n n) : ℕ) : ℚ) := by
        exact_mod_cast Nat.one_le_two_pow
      calc 1 / ((2 ^ (52 - bitLog n n) : ℕ) : ℚ) ≤ 1 := by
            rw [div_le_one (by linarith)]; exact hp
        _ ≤ (n : ℚ) := by exact_mod_cast h1
  have hy : (1 : ℚ) ≤ (n : ℚ) / powInt 2 ((bitLog n n : ℤ) - 52) := by
    rw [le_div_iff₀ (powInt_pos _), one_mul]
    exact hle
  have hf : 1 ≤ ⌊(n : ℚ) / powInt 2 ((bitLog n n : ℤ) - 52)⌋₊ := by
    exact Nat.le_floor (by exact_mod_cast hy)
  exact_mod_cast lt_of_lt_of_le Nat.zero_lt_one (le_trans hf (le_roundHalfEven _))

theorem natCast_lt_powInt (n k : ℕ) (hk : 53 < k) (h : n < 2 ^ 53) :
    (n : ℚ) < powInt 2 (k : ℤ) := by
  rw [powInt_of_nonneg]
  exact Nat.cast_lt.mpr (lt_trans h (Nat.pow_lt_pow_right (Nat.lt_succ_self 1) hk))

theorem roundDouble_intCast (z : ℤ) (h : |z| < 2 ^ 53) : roundDouble (z : ℚ) = JSNum.fin z := by
  unfold roundDouble
  by_cases hz : z = 0
  · subst hz; simp
  · have hq : (z : ℚ) ≠ 0 := by exact_mod_cast hz
    rw [if_neg hq]
    have habs : |(z : ℚ)| = ((z.natAbs : ℕ) : ℚ) := by
      rw [Nat.cast_natAbs, Int.cast_abs]
    have h1 : 1 ≤ z.natAbs := Int.natAbs_pos.mpr hz
    have h2 : z.natAbs < 2 ^ 53 := by
      have : (z.natAbs : ℤ) < 2 ^ 53 := by rw [Int.natCast_natAbs]; exact h
      exact_mod_cast this
    simp only [habs, roundMagnitude_natCast _ h1 h2]
    have hbig : ¬ powInt 2 1024 ≤ ((z.natAbs : ℕ) : ℚ) :=
      not_le.mpr (natCast_lt_powInt z.natAbs 1024 (by decide) h2)
    rw [if_neg hbig]
    congr 1
    by_cases hp : 0 < z
    · have : (0 : ℚ) < z := by exact_mod_cast hp
      rw [if_pos this, Nat.cast_natAbs, Int.cast_abs, abs_of_pos this]
    · have hn : z < 0 := lt_of_le_of_ne (not_lt.mp hp) hz
      have : ¬ (0 : ℚ) < z := by
        have : (z : ℚ) < 0 := by exact_mod_cast hn
        linarith
      have hn' : (z : ℚ) < 0 := by exact_mod_cast hn
      rw [if_neg this, Nat.cast_natAbs, Int.cast_abs, abs_of_neg hn', neg_neg]


theorem roundDouble_pos_intCast (z : ℤ) (hz : 0 < z) : roundDouble (z : ℚ) > 0 := by
  unfold roundDouble
  have hq : (0 : ℚ) < z := by exact_mod_cast hz
  rw [if_neg (ne_of_gt hq)]
  have habs : |(z : ℚ)| = ((z.natAbs : ℕ) : ℚ) := by
    rw [Nat.cast_natAbs, Int.cast_abs]
  have h1 : 1 ≤ z.natAbs := Int.natAbs_pos.mpr (ne_of_gt hz)
  have hr := roundMagnitude_pos_natCast z.natAbs h1
  simp only [habs, hq, if_true]
  split
  · exact trivial
  · exact hr

theorem roundDouble_not_pos (q : ℚ) (hq : q ≤ 0) : ¬ roundDouble q > 0 := by
  unfold roundDouble
  by_cases h0 : q = 0
  · rw [if_pos h0]
    exact lt_irrefl (0 : ℚ)
  · rw [if_neg h0]
    have hn : ¬ 0 < q := not_lt.mpr hq
    simp only [hn, if_false]
    split
    · exact fun h => h
    · intro h
      have h1 : (0 : ℚ) < - roundMagnitude |q| := h
      linarith [roundMagnitude_nonneg |q|]

/-! ### Order of numbers and of dates -/

namespace JSNum

theorem zero_eq : (0 : JSNum) = fin 0 := rfl

theorem fin_add_fin (a b : ℚ) : fin a + fin b = roundDouble (a + b) := rfl

theorem fin_sub_fin (a b : ℚ) : fin a - fin b = roundDouble (a - b) := rfl

theorem fin_lt_fin (a b : ℚ) : fin a < fin b ↔ a < b := Iff.rfl

theorem fin_le_fin (a b : ℚ) : fin a ≤ fin b ↔ a ≤ b := Iff.rfl

theorem pos_of_nonneg_of_ne_zero (x : JSNum) (h : x ≥ 0) (hz : x.eqZero = false) : x > 0 := by
  cases x with
  | nan => exact h
  | pinf => exact trivial
  | ninf => exact h
  | fin q =>
    have hne : q ≠ 0 := by simpa [eqZero] using hz
    exact lt_of_le_of_ne h (Ne.symm hne)

theorem isInteger_iff (x : JSNum) : x.isInteger = true ↔ ∃ z : ℤ, x = fin z := by
  cases x with
  | nan => exact ⟨fun h => (by cases h), fun ⟨_, h⟩ => (by cases h)⟩
  | pinf => exact ⟨fun h => (by cases h), fun ⟨_, h⟩ => (by cases h)⟩
  | ninf => exact ⟨fun h => (by cases h), fun ⟨_, h⟩ => (by cases h)⟩
  | fin q =>
    constructor
    · intro h
      have hd : q.den = 1 := by simpa [isInteger] using h
      exact ⟨q.num, congrArg fin (Rat.coe_int_num_of_den_eq_one hd).symm⟩
    · rintro ⟨z, hz⟩
      cases hz
      simp [isInteger]

end JSNum

namespace TimeValue

theorem ms_lt_ms (a b : ℤ) : ms a < ms b ↔ a < b := Iff.rfl

theorem ms_le_ms (a b : ℤ) : ms a ≤ ms b ↔ a ≤ b := Iff.rfl

theorem lt_imp_le {a b : TimeValue} (h : a < b) : a ≤ b := by
  cases a <;> cases b
  · exact h
  · exact h
  · exact h
  · exact (ms_le_ms _ _).mpr (le_of_lt ((ms_lt_ms _ _).mp h))

theorem not_lt_imp_le {a b : TimeValue} (ha : a.isNaN = false) (hb : b.isNaN = false)
    (h : ¬ a < b) : b ≤ a := by
  cases a <;> cases b
  · cases ha
  · cases ha
  · cases hb
  · exact (ms_le_ms _ _).mpr (not_lt.mp (fun h1 => h ((ms_lt_ms _ _).mpr h1)))

theorem le_chain {a b c : TimeValue} (hab : a ≤ b) (hbc : b ≤ c) : a ≤ c := by
  cases a <;> cases b <;> cases c
  · exact hab
  · exact hab
  · exact hab
  · exact hab
  · exact hbc
  · exact absurd hab (fun h => h)
  · exact hbc
  · exact (ms_le_ms _ _).mpr (le_trans ((ms_le_ms _ _).mp hab) ((ms_le_ms _ _).mp hbc))

end TimeValue

/-! ### The sort -/

theorem insertSorted_perm {α : Type} (c : α → α → JSNum) (x : α) (l : List α) :
    (insertSorted c x l).Perm (x :: l) := by
  induction l with
  | nil => exact List.Perm.refl _
  | cons y ys ih =>
    unfold insertSorted
    split
    · exact (List.Perm.cons y ih).trans (List.Perm.swap x y ys)
    · exact List.Perm.refl _

theorem arraySort_perm {α : Type} (c : α → α → JSNum) (l : List α) :
    (arraySort c l).Perm l := by
  induction l with
  | nil => exact List.Perm.refl _
  | cons x xs ih =>
    unfold arraySort
    exact (insertSorted_perm c x _).trans (List.Perm.cons x ih)

theorem dateDescending_pos_iff (x y : Transaction) :
    dateDescending x y > 0 ↔ x.date < y.date := by
  unfold dateDescending
  cases hx : x.date <;> cases hy : y.date
  · exact ⟨fun h => h, fun h => h⟩
  · exact ⟨fun h => h, fun h => h⟩
  · exact ⟨fun h => h, fun h => h⟩
  · rename_i a b
    show roundDouble ((b : ℚ) - (a : ℚ)) > 0 ↔ a < b
    rw [← Int.cast_sub]
    constructor
    · intro h
      by_contra hc
      exact roundDouble_not_pos _ (by exact_mod_cast (by omega : b - a ≤ 0)) h
    · intro h
      exact roundDouble_pos_intCast _ (by omega)

theorem insertSorted_dates_ge (x : Transaction) (l : List Transaction)
    (hx : x.date.isNaN = false) (hl : ∀ t ∈ l, t.date.isNaN = false)
    (hs : l.Pairwise (fun a b => a.date ≥ b.date)) :
    (insertSorted dateDescending x l).Pairwise (fun a b => a.date ≥ b.date) := by
  induction l with
  | nil => simp [insertSorted]
  | cons y ys ih =>
    have hy : y.date.isNaN = false := hl y (List.mem_cons_self _ _)
    have hys : ∀ t ∈ ys, t.date.isNaN = false := fun t ht => hl t (List.mem_cons_of_mem _ ht)
    obtain ⟨hyall, hsys⟩ := List.pairwise_cons.mp hs
    unfold insertSorted
    split
    · rename_i hgt
      rw [dateDescending_pos_iff] at hgt
      refine List.pairwise_cons.mpr ⟨?_, ih hys hsys⟩
      intro t ht
      rcases List.mem_cons.mp ((insertSorted_perm dateDescending x ys).subset ht) with h | h
      · subst h
        exact TimeValue.lt_imp_le hgt
      · exact hyall t h
    · rename_i hgt
      rw [dateDescending_pos_iff] at hgt
      have hxy : x.date ≥ y.date := TimeValue.not_lt_imp_le hx hy hgt
      refine List.pairwise_cons.mpr ⟨?_, hs⟩
      intro t ht
      rcases List.mem_cons.mp ht with h | h
      · subst h; exact hxy
      · exact TimeValue.le_chain (hyall t h) hxy

theorem arraySort_dates_ge (l : List Transaction) (hl : ∀ t ∈ l, t.date.isNaN = false) :
    (arraySort dateDescending l).Pairwise (fun a b => a.date ≥ b.date) := by
  induction l with
  | nil => simp [arraySort]
  | cons x xs ih =>
    unfold arraySort
    have hxs : ∀ t ∈ xs, t.date.isNaN = false := fun t ht => hl t (List.mem_cons_of_mem _ ht)
    refine insertSorted_dates_ge x _ (hl x (List.mem_cons_self _ _)) ?_ (ih hxs)
    intro t ht
    exact hxs t ((arraySort_perm dateDescending xs).subset ht)

/-- Insertion moves `x` only past elements of strictly later date, so the
elements of any one date keep their order. -/
theorem insertSorted_filter_date (d : TimeValue) (x : Transaction) (l : List Transaction) :
    (insertSorted dateDescending x l).filter (fun t => t.date = d)
      = (x :: l).filter (fun t => t.date = d) := by
  induction l with
  | nil => simp [insertSorted]
  | cons y ys ih =>
    unfold insertSorted
    split
    · rename_i hgt
      rw [dateDescending_pos_iff] at hgt
      have hne : ¬ (x.date = d ∧ y.date = d) := by
        rintro ⟨h1, h2⟩
        rw [h1, h2] at hgt
        cases d with
        | invalid => exact hgt
        | ms q => exact lt_irrefl q ((TimeValue.ms_lt_ms q q).mp hgt)
      by_cases hxd : x.date = d <;> by_cases hyd : y.date = d
      · exact absurd ⟨hxd, hyd⟩ hne
      · rw [List.filter_cons_of_neg (by simpa using hyd), ih,
          List.filter_cons_of_pos (by simpa using hxd),
          List.filter_cons_of_pos (by simpa using hxd),
          List.filter_cons_of_neg (by simpa using hyd)]
      · rw [List.filter_cons_of_pos (by simpa using hyd), ih,
          List.filter_cons_of_neg (by simpa using hxd),
          List.filter_cons_of_neg (by simpa using hxd),
          List.filter_cons_of_pos (by simpa using hyd)]
      · rw [List.filter_cons_of_neg (by simpa using hyd), ih,
          List.filter_cons_of_neg (by simpa using hxd),
          List.filter_cons_of_neg (by simpa using hxd),
          List.filter_cons_of_neg (by simpa using hyd)]
    · rfl

theorem arraySort_filter_date (d : TimeValue) (l : List Transaction) :
    (arraySort dateDescending l).filter (fun t => t.date = d)
      = l.filter (fun t => t.date = d) := by
  induction l with
  | nil => rfl
  | cons x xs ih =>
    unfold arraySort
    rw [insertSorted_filter_date]
    by_cases hxd : x.date = d
    · rw [List.filter_cons_of_pos (by simpa using hxd),
        List.filter_cons_of_pos (by simpa using hxd), ih]
    · rw [List.filter_cons_of_neg (by simpa using hxd),
        List.filter_cons_of_neg (by simpa using hxd), ih]

/-! ### The branches of the submit handlers -/

theorem addTransaction_missing (w : World) (newId : String) (now : ℤ)
    (h : w.amount.isFalsy = true ∨ w.description = "") :
    addTransaction w newId now = setError w MissingField := by
  unfold addTransaction
  rw [if_pos h]

theorem addTransaction_zero (w : World) (newId : String) (now : ℤ)
    (h : ¬ (w.amount.isFalsy = true ∨ w.description = ""))
    (hz : (parseFloat w.amount).eqZero = true) :
    addTransaction w newId now = setError w ZeroAmount := by
  unfold addTransaction
  rw [if_neg h]
  simp only [hz, or_true, if_true]

theorem addTransaction_insufficient (w : World) (newId : String) (now : ℤ)
    (h : ¬ (w.amount.isFalsy = true ∨ w.description = ""))
    (hz : (parseFloat w.amount).eqZero = false)
    (ht : w.type = "Expense") (hb : parseFloat w.amount > w.balance) :
    addTransaction w newId now = setError w InsufficientBalance := by
  unfold addTransaction
  rw [if_neg h]
  simp only [hz, ht, hb, and_self, true_or, if_true, Bool.false_eq_true, if_false]

theorem addTransaction_accept (w : World) (newId : String) (now : ℤ)
    (h : ¬ (w.amount.isFalsy = true ∨ w.description = ""))
    (hz : (parseFloat w.amount).eqZero = false)
    (hb : ¬ (w.type = "Expense" ∧ parseFloat w.amount > w.balance)) :
    addTransaction w newId now =
      { fetchTransactions { w with
          db := addDoc w.db newId (parseFloat w.amount) w.description w.type (TimeValue.ms now) }
        with amount := FormValue.str "", description := "", type := "Income", error := "" } := by
  unfold addTransaction
  rw [if_neg h]
  simp only [hz, hb, or_self, if_false, Bool.false_eq_true]

theorem updateTransaction_missing (w : World) (id : String)
    (h : w.amount.isFalsy = true ∨ w.description = "") :
    updateTransaction w id = setError w MissingField := by
  unfold updateTransaction
  rw [if_pos h]

theorem updateTransaction_reject (w : World) (id : String)
    (h : ¬ (w.amount.isFalsy = true ∨ w.description = ""))
    (hv : (w.type = "Expense" ∧ parseFloat w.amount > w.balance) ∨
      (w.type = "Expense" ∧ (parseFloat w.amount).eqZero = true)) :
    updateTransaction w id = setError w InsufficientBalance := by
  unfold updateTransaction
  rw [if_neg h]
  simp only [hv, if_true]
  split <;> rfl

theorem updateTransaction_accept (w : World) (id : String)
    (h : ¬ (w.amount.isFalsy = true ∨ w.description = ""))
    (hv : ¬ ((w.type = "Expense" ∧ parseFloat w.amount > w.balance) ∨
      (w.type = "Expense" ∧ (parseFloat w.amount).eqZero = true)))
    (hid : ∃ t ∈ w.db, t.id = id) :
    updateTransaction w id =
      { fetchTransactions { w with
          db := w.db.map (fun t =>
            if t.id = id then
              { t with amount := parseFloat w.amount, description := w.description,
                       type := w.type }
            else t) }
        with editingId := none, amount := FormValue.str "", description := "",
             type := "Income", error := "" } := by
  unfold updateTransaction
  rw [if_neg h, if_neg hv]
  have hany : (w.db.any (fun t => decide (t.id = id))) = true := by
    obtain ⟨t, ht, hti⟩ := hid
    exact List.any_eq_true.mpr ⟨t, ht, by simpa using hti⟩
  simp only [updateDoc, hany, if_true]

/-! ### The balance fold -/

theorem absTotal_nonneg (l : List Transaction) : 0 ≤ absTotal l := by
  unfold absTotal
  apply List.sum_nonneg
  intro x hx
  obtain ⟨t, _, rfl⟩ := List.mem_map.mp hx
  exact abs_nonneg _

theorem absTotal_cons (t : Transaction) (l : List Transaction) :
    absTotal (t :: l) = |t.amount.toRat| + absTotal l := by
  simp [absTotal]

theorem exactBalance_cons (t : Transaction) (l : List Transaction) :
    exactBalance (t :: l) = signedAmount t + exactBalance l := by
  simp [exactBalance]

theorem abs_exactBalance_le (l : List Transaction) : |exactBalance l| ≤ absTotal l := by
  induction l with
  | nil => simp [exactBalance, absTotal]
  | cons t l ih =>
    rw [exactBalance_cons, absTotal_cons]
    have h1 : |signedAmount t| = |t.amount.toRat| := by
      unfold signedAmount
      split
      · rfl
      · exact abs_neg _
    calc |signedAmount t + exactBalance l| ≤ |signedAmount t| + |exactBalance l| := abs_add _ _
      _ ≤ |t.amount.toRat| + absTotal l := by rw [h1]; linarith

theorem exactBalance_perm {l₁ l₂ : List Transaction} (h : l₁.Perm l₂) :
    exactBalance l₁ = exactBalance l₂ :=
  (h.map _).sum_eq

theorem absTotal_perm {l₁ l₂ : List Transaction} (h : l₁.Perm l₂) :
    absTotal l₁ = absTotal l₂ :=
  (h.map _).sum_eq

theorem exactSum_cons (ty : String) (t : Transaction) (l : List Transaction) :
    exactSum ty (t :: l) = (if t.type = ty then t.amount.toRat else 0) + exactSum ty l := by
  unfold exactSum
  by_cases h : t.type = ty
  · rw [List.filter_cons_of_pos (by simpa using h), if_pos h, List.map_cons, List.sum_cons]
  · rw [List.filter_cons_of_neg (by simpa using h), if_neg h, zero_add]

theorem exactBalance_eq_sums (l : List Transaction)
    (h : ∀ t ∈ l, t.type = "Income" ∨ t.type = "Expense") :
    exactBalance l = exactSum "Income" l - exactSum "Expense" l := by
  induction l with
  | nil => simp [exactBalance, exactSum]
  | cons t l ih =>
    have ih1 := ih (fun x hx => h x (List.mem_cons_of_mem _ hx))
    rw [exactBalance_cons, ih1, exactSum_cons, exactSum_cons]
    unfold signedAmount
    rcases h t (List.mem_cons_self _ _) with ht | ht
    · have hne : ¬ t.type = "Expense" := by rw [ht]; decide
      rw [if_pos ht, if_pos ht, if_neg hne]
      ring
    · have hne : ¬ t.type = "Income" := by rw [ht]; decide
      rw [if_neg hne, if_neg hne, if_pos ht]
      ring

/-- On integer amounts whose absolute values total less than `2 ^ 53` no step
of the fold rounds. -/
theorem foldl_exact (l : List Transaction) (z : ℤ)
    (hint : ∀ t ∈ l, t.amount.isInteger = true)
    (hb : |(z : ℚ)| + absTotal l < 9007199254740992) :
    l.foldl
      (fun acc transaction =>
        if transaction.type = "Income" then acc + transaction.amount
        else acc - transaction.amount) (JSNum.fin z)
      = JSNum.fin ((z : ℚ) + exactBalance l) := by
  induction l generalizing z with
  | nil => simp [exactBalance]
  | cons t l ih =>
    obtain ⟨k, hk⟩ := (JSNum.isInteger_iff _).mp (hint t (List.mem_cons_self _ _))
    have hl : ∀ x ∈ l, x.amount.isInteger = true :=
      fun x hx => hint x (List.mem_cons_of_mem _ hx)
    have hk' : t.amount.toRat = (k : ℚ) := by rw [hk]; rfl
    rw [absTotal_cons, hk'] at hb
    have hnn := absTotal_nonneg l
    rw [List.foldl_cons, exactBalance_cons]
    by_cases hty : t.type = "Income"
    · have hsum : |((z + k : ℤ) : ℚ)| ≤ |(z : ℚ)| + |(k : ℚ)| := by
        push_cast; exact abs_add _ _
      have hlt : |z + k| < 2 ^ 53 := by
        have : |((z + k : ℤ) : ℚ)| < 9007199254740992 := by linarith
        rw [← Int.cast_abs] at this
        exact_mod_cast this
      have hstep : (JSNum.fin (z : ℚ) + t.amount) = JSNum.fin ((z + k : ℤ) : ℚ) := by
        rw [hk, JSNum.fin_add_fin, ← Int.cast_add]
        exact roundDouble_intCast _ hlt
      simp only [hty, if_true]
      rw [hstep, ih (z + k) hl (by linarith)]
      simp only [signedAmount, hty, if_true, hk']
      push_cast
      ring_nf
    · have hsum : |((z - k : ℤ) : ℚ)| ≤ |(z : ℚ)| + |(k : ℚ)| := by
        push_cast; exact abs_sub _ _
      have hlt : |z - k| < 2 ^ 53 := by
        have : |((z - k : ℤ) : ℚ)| < 9007199254740992 := by linarith
        rw [← Int.cast_abs] at this
        exact_mod_cast this
      have hstep : (JSNum.fin (z : ℚ) - t.amount) = JSNum.fin ((z - k : ℤ) : ℚ) := by
        rw [hk, JSNum.fin_sub_fin, ← Int.cast_sub]
        exact roundDouble_intCast _ hlt
      simp only [hty, if_false]
      rw [hstep, ih (z - k) hl (by linarith)]
      simp only [signedAmount, hty, if_false, hk']
      push_cast
      ring_nf

theorem totalBalance_exact (l : List Transaction)
    (hint : ∀ t ∈ l, t.amount.isInteger = true)
    (hb : absTotal l < 9007199254740992) :
    totalBalance l = JSNum.fin (exactBalance l) := by
  have h := foldl_exact l 0 hint (by simpa using hb)
  unfold totalBalance
  rw [JSNum.zero_eq]
  simpa using h

theorem fetchTransactions_balance_exact (w : World)
    (hint : ∀ t ∈ w.db, t.amount.isInteger = true)
    (hb : absTotal w.db < 9007199254740992) :
    (fetchTransactions w).balance = JSNum.fin (exactBalance w.db) := by
  have hperm := arraySort_perm dateDescending w.db
  show totalBalance (arraySort dateDescending w.db) = _
  rw [totalBalance_exact _ (fun t ht => hint t (hperm.subset ht))
    (by rw [absTotal_perm hperm]; exact hb), exactBalance_perm hperm]


/-! ### The claims -/

/-- C1, as the code has it: for every collection whose documents are typed
Income or Expense and whose amounts are integers with absolute values totalling
less than 2^53, the balance published by `fetchTransactions` is exactly the sum
of the Income amounts minus the sum of the Expense amounts, and the fold gives
that same value on every permutation of the collection (the date-sorted list
and the list as fetched among them). -/
theorem C1_balance_exact_on_integers (w : World)
    (htype : ∀ t ∈ w.db, t.type = "Income" ∨ t.type = "Expense")
    (hint : ∀ t ∈ w.db, t.amount.isInteger = true)
    (hbound : absTotal w.db < 9007199254740992) :
    (fetchTransactions w).balance
      = JSNum.fin (exactSum "Income" w.db - exactSum "Expense" w.db) ∧
    (∀ l : List Transaction, l.Perm w.db →
      totalBalance l = JSNum.fin (exactSum "Income" w.db - exactSum "Expense" w.db)) ∧
    totalBalance (fetchTransactions w).transactions = totalBalance w.db := by
  have hsum := exactBalance_eq_sums w.db htype
  have hall : ∀ l : List Transaction, l.Perm w.db →
      totalBalance l = JSNum.fin (exactSum "Income" w.db - exactSum "Expense" w.db) := by
    intro l hl
    rw [totalBalance_exact l (fun t ht => hint t (hl.subset ht))
      (by rw [absTotal_perm hl]; exact hbound), exactBalance_perm hl, hsum]
  refine ⟨hall _ (arraySort_perm dateDescending w.db), hall, ?_⟩
  rw [hall _ (List.Perm.refl _)]
  exact hall _ (arraySort_perm dateDescending w.db)

/-- C1 fails as stated: for three incomes of 0.1, 0.2 and 0.3 the fold over the
date-sorted list gives 0.6 and the fold over the list as fetched, a permutation
of it, gives 0.6000000000000001. -/
theorem C1_counterexample :
    (∀ t ∈ tenthsDb, t.type = "Income" ∨ t.type = "Expense") ∧
    (fetchTransactions (initialWorld tenthsDb)).transactions = tenthsDb.reverse ∧
    (fetchTransactions (initialWorld tenthsDb)).balance = parseFloatString "0.6" ∧
    totalBalance tenthsDb = parseFloatString "0.6000000000000001" ∧
    (fetchTransactions (initialWorld tenthsDb)).balance ≠ totalBalance tenthsDb := by
  decide!

theorem C1_balance_witness :
    ((∀ t ∈ (initialWorld sampleDb).db, t.type = "Income" ∨ t.type = "Expense") ∧
      (∀ t ∈ (initialWorld sampleDb).db, t.amount.isInteger = true) ∧
      absTotal (initialWorld sampleDb).db < 9007199254740992) ∧
    (fetchTransactions (initialWorld sampleDb)).balance
      = JSNum.fin (exactSum "Income" (initialWorld sampleDb).db
          - exactSum "Expense" (initialWorld sampleDb).db) :=
  ⟨by decide!,
   (C1_balance_exact_on_integers (initialWorld sampleDb) (by decide!) (by decide!)
      (by decide!)).1⟩

/-- C2: for every collection whose dates are all valid, the list published by
`fetchTransactions` is a permutation of the collection, each element's date is
greater than or equal to the date of the next one, and the transactions of any
one date stand in the order they had in the collection. -/
theorem C2_sort_descending_stable (w : World) (h : ∀ t ∈ w.db, t.date.isNaN = false) :
    (fetchTransactions w).transactions.Perm w.db ∧
    List.Chain' (fun a b => a.date ≥ b.date) (fetchTransactions w).transactions ∧
    ∀ d : TimeValue, (fetchTransactions w).transactions.filter (fun t => t.date = d)
      = w.db.filter (fun t => t.date = d) :=
  ⟨arraySort_perm dateDescending w.db,
   List.Pairwise.chain' (arraySort_dates_ge w.db h),
   fun d => arraySort_filter_date d w.db⟩

theorem C2_sort_witness :
    (∀ t ∈ (initialWorld sampleDb).db, t.date.isNaN = false) ∧
    List.Chain' (fun a b => a.date ≥ b.date)
      (fetchTransactions (initialWorld sampleDb)).transactions :=
  ⟨by decide, (C2_sort_descending_stable (initialWorld sampleDb) (by decide)).2.1⟩

theorem setError_injective (w : World) {m₁ m₂ : String} (h : setError w m₁ = setError w m₂) :
    m₁ = m₂ :=
  congrArg World.error h

theorem addTransaction_accept_error (w : World) (newId : String) (now : ℤ)
    (h : ¬ (w.amount.isFalsy = true ∨ w.description = ""))
    (hz : (parseFloat w.amount).eqZero = false)
    (hb : ¬ (w.type = "Expense" ∧ parseFloat w.amount > w.balance)) :
    (addTransaction w newId now).error = "" := by
  rw [addTransaction_accept w newId now h hz hb]

theorem updateTransaction_accept_error (w : World) (id : String)
    (h : ¬ (w.amount.isFalsy = true ∨ w.description = ""))
    (hv : ¬ ((w.type = "Expense" ∧ parseFloat w.amount > w.balance) ∨
      (w.type = "Expense" ∧ (parseFloat w.amount).eqZero = true)))
    (hid : ∃ t ∈ w.db, t.id = id) :
    (updateTransaction w id).error = "" := by
  rw [updateTransaction_accept w id h hv hid]

/-- C3, as the code has it: with both fields filled in, `addTransaction` rejects
an Expense with the InsufficientBalance message exactly when the parsed amount
is greater than the balance and is not 0; `updateTransaction`, for a parsed
amount other than 0, rejects an Expense with that message exactly when the
parsed amount is greater than the balance; and neither ever rejects an Income
with that message, whatever the balance. -/
theorem C3_insufficient_balance_iff (w : World) (newId : String) (now : ℤ) (id : String)
    (hfields : ¬ (w.amount.isFalsy = true ∨ w.description = ""))
    (hid : ∃ t ∈ w.db, t.id = id) :
    (w.type = "Expense" →
      (addTransaction w newId now = setError w InsufficientBalance ↔
        (parseFloat w.amount > w.balance ∧ (parseFloat w.amount).eqZero = false))) ∧
    (w.type = "Expense" → (parseFloat w.amount).eqZero = false →
      (updateTransaction w id = setError w InsufficientBalance ↔
        parseFloat w.amount > w.balance)) ∧
    (w.type = "Income" →
      addTransaction w newId now ≠ setError w InsufficientBalance ∧
      updateTransaction w id ≠ setError w InsufficientBalance) := by
  refine ⟨?_, ?_, ?_⟩
  · intro hty
    constructor
    · intro hrej
      cases hz : (parseFloat w.amount).eqZero with
      | true =>
        rw [addTransaction_zero w newId now hfields hz] at hrej
        exact absurd (setError_injective w hrej) (by decide)
      | false =>
        refine ⟨?_, rfl⟩
        by_contra hb
        have herr := addTransaction_accept_error w newId now hfields hz (fun hc => hb hc.2)
        rw [hrej] at herr
        exact absurd (show InsufficientBalance = "" from herr) (by decide)
    · rintro ⟨hb, hz⟩
      exact addTransaction_insufficient w newId now hfields hz hty hb
  · intro hty hz
    constructor
    · intro hrej
      by_contra hb
      have hv : ¬ ((w.type = "Expense" ∧ parseFloat w.amount > w.balance) ∨
          (w.type = "Expense" ∧ (parseFloat w.amount).eqZero = true)) := by
        rintro (hc | hc)
        · exact hb hc.2
        · rw [hz] at hc; exact absurd hc.2 (by decide)
      have herr := updateTransaction_accept_error w id hfields hv hid
      rw [hrej] at herr
      exact absurd (show InsufficientBalance = "" from herr) (by decide)
    · intro hb
      exact updateTransaction_reject w id hfields (Or.inl ⟨hty, hb⟩)
  · intro hty
    have hne : ¬ w.type = "Expense" := by rw [hty]; decide
    constructor
    · intro hrej
      cases hz : (parseFloat w.amount).eqZero with
      | true =>
        rw [addTransaction_zero w newId now hfields hz] at hrej
        exact absurd (setError_injective w hrej) (by decide)
      | false =>
        have herr := addTransaction_accept_error w newId now hfields hz (fun hc => hne hc.1)
        rw [hrej] at herr
        exact absurd (show InsufficientBalance = "" from herr) (by decide)
    · intro hrej
      have hv : ¬ ((w.type = "Expense" ∧ parseFloat w.amount > w.balance) ∨
          (w.type = "Expense" ∧ (parseFloat w.amount).eqZero = true)) := by
        rintro (hc | hc) <;> exact hne hc.1
      have herr := updateTransaction_accept_error w id hfields hv hid
      rw [hrej] at herr
      exact absurd (show InsufficientBalance = "" from herr) (by decide)

/-- C3 fails as stated: in a ledger whose balance is -80, an Expense of 0 is an
amount greater than the balance, yet `addTransaction` rejects it with ZeroAmount
and not with InsufficientBalance; and an Income of 0 is rejected. -/
theorem C3_counterexample :
    (zeroExpenseForm.type = "Expense" ∧
      parseFloat zeroExpenseForm.amount > zeroExpenseForm.balance ∧
      addTransaction zeroExpenseForm "c3" 3000 ≠ setError zeroExpenseForm InsufficientBalance ∧
      addTransaction zeroExpenseForm "c3" 3000 = setError zeroExpenseForm ZeroAmount) ∧
    (zeroIncomeForm.type = "Income" ∧
      addTransaction zeroIncomeForm "c3" 3000 = setError zeroIncomeForm ZeroAmount) := by
  decide!

theorem C3_insufficient_balance_witness :
    (¬ (rentForm.amount.isFalsy = true ∨ rentForm.description = "")) ∧
    (∃ t ∈ rentForm.db, t.id = "b2") ∧
    addTransaction rentForm "c3" 3000 = setError rentForm InsufficientBalance :=
  ⟨by decide, by decide,
   ((C3_insufficient_balance_iff rentForm "c3" 3000 "b2" (by decide) (by decide)).1
      (by decide)).mpr (by decide!)⟩

/-- C4, the code at the failing inputs: `updateTransaction` on an Expense whose
amount parses to 0 ends with the InsufficientBalance message, not the
ZeroAmount one, and on an Income whose amount parses to 0 it reports no error
and writes the amount 0 to the store; `addTransaction` on the same two forms
rejects with ZeroAmount. -/
theorem C4_update_zero_amount :
    (parseFloat zeroExpenseEdit.amount = JSNum.fin 0 ∧
      updateTransaction zeroExpenseEdit "b2" = setError zeroExpenseEdit InsufficientBalance ∧
      (updateTransaction zeroExpenseEdit "b2").error ≠ ZeroAmount) ∧
    (parseFloat zeroIncomeEdit.amount = JSNum.fin 0 ∧
      (updateTransaction zeroIncomeEdit "a1").error = "" ∧
      (updateTransaction zeroIncomeEdit "a1").db
        = [{ sampleIncome with amount := JSNum.fin 0 }, sampleExpense]) ∧
    (addTransaction zeroExpenseEdit "c3" 3000 = setError zeroExpenseEdit ZeroAmount ∧
      addTransaction zeroIncomeEdit "c3" 3000 = setError zeroIncomeEdit ZeroAmount) := by
  decide!

theorem addTransaction_db_cases (w : World) (newId : String) (now : ℤ) :
    (addTransaction w newId now).db = w.db ∨
    ((parseFloat w.amount).eqZero = false ∧
      ¬ (w.type = "Expense" ∧ parseFloat w.amount > w.balance) ∧
      (addTransaction w newId now).db =
        w.db ++ [{ id := newId, amount := parseFloat w.amount, description := w.description,
                   type := w.type, date := TimeValue.ms now }]) := by
  by_cases h : w.amount.isFalsy = true ∨ w.description = ""
  · left; rw [addTransaction_missing w newId now h]; rfl
  · cases hz : (parseFloat w.amount).eqZero with
    | true => left; rw [addTransaction_zero w newId now h hz]; rfl
    | false =>
      by_cases hb : w.type = "Expense" ∧ parseFloat w.amount > w.balance
      · left; rw [addTransaction_insufficient w newId now h hz hb.1 hb.2]; rfl
      · right; rw [addTransaction_accept w newId now h hz hb]; exact ⟨rfl, hb, rfl⟩

theorem updateTransaction_db_cases (w : World) (id : String) :
    (updateTransaction w id).db = w.db ∨
    (updateTransaction w id).db =
      w.db.map (fun t =>
        if t.id = id then
          { t with amount := parseFloat w.amount, description := w.description,
                   type := w.type }
        else t) := by
  by_cases h : w.amount.isFalsy = true ∨ w.description = ""
  · left; rw [updateTransaction_missing w id h]; rfl
  · by_cases hv : (w.type = "Expense" ∧ parseFloat w.amount > w.balance) ∨
        (w.type = "Expense" ∧ (parseFloat w.amount).eqZero = true)
    · left; rw [updateTransaction_reject w id h hv]; rfl
    · by_cases hid : ∃ t ∈ w.db, t.id = id
      · right; rw [updateTransaction_accept w id h hv hid]; rfl
      · left
        unfold updateTransaction
        rw [if_neg h, if_neg hv]
        have hany : (w.db.any (fun t => decide (t.id = id))) = false := by
          rw [Bool.eq_false_iff]
          intro hc
          obtain ⟨t, ht, hti⟩ := List.any_eq_true.mp hc
          exact hid ⟨t, ht, by simpa using hti⟩
        simp only [updateDoc, hany, Bool.false_eq_true, if_false]

/-- C5, as the code has it: from a store in which every amount is positive,
`deleteTransaction` always, `addTransaction` whenever the submitted amount
parses to a number that is `>= 0`, and `updateTransaction` whenever it parses to
a number that is `> 0`, leave a store in which every amount is positive. -/
theorem C5_positive_amounts_preserved (w : World) (h : ∀ t ∈ w.db, t.amount > 0) :
    (∀ id : String, ∀ t ∈ (deleteTransaction w id).db, t.amount > 0) ∧
    (∀ (newId : String) (now : ℤ), parseFloat w.amount ≥ 0 →
      ∀ t ∈ (addTransaction w newId now).db, t.amount > 0) ∧
    (∀ id : String, parseFloat w.amount > 0 →
      ∀ t ∈ (updateTransaction w id).db, t.amount > 0) := by
  refine ⟨?_, ?_, ?_⟩
  · intro id t ht
    exact h t (List.mem_of_mem_filter ht)
  · intro newId now hge t ht
    rcases addTransaction_db_cases w newId now with hdb | ⟨hz, _, hdb⟩
    · rw [hdb] at ht; exact h t ht
    · rw [hdb] at ht
      rcases List.mem_append.mp ht with ht | ht
      · exact h t ht
      · rw [List.mem_singleton] at ht
        subst ht
        exact JSNum.pos_of_nonneg_of_ne_zero _ hge hz
  · intro id hpos t ht
    rcases updateTransaction_db_cases w id with hdb | hdb
    · rw [hdb] at ht; exact h t ht
    · rw [hdb] at ht
      obtain ⟨t0, ht0, rfl⟩ := List.mem_map.mp ht
      by_cases hid : t0.id = id
      · rw [if_pos hid]; exact hpos
      · rw [if_neg hid]; exact h t0 ht0

/-- C5 fails as stated: the store of `sampleWorld` holds the amounts 100 and 80,
and adding an Income whose amount is typed as -5 stores the amount -5. -/
theorem C5_counterexample :
    (∀ t ∈ negativeIncomeForm.db, t.amount > 0) ∧
    ¬ (∀ t ∈ (addTransaction negativeIncomeForm "c3" 3000).db, t.amount > 0) := by
  decide!

theorem C5_positive_amounts_witness :
    ((∀ t ∈ smallExpenseEdit.db, t.amount > 0) ∧ parseFloat smallExpenseEdit.amount > 0) ∧
    (∀ t ∈ (deleteTransaction smallExpenseEdit "a1").db, t.amount > 0) ∧
    (∀ t ∈ (addTransaction smallExpenseEdit "c3" 3000).db, t.amount > 0) ∧
    (∀ t ∈ (updateTransaction smallExpenseEdit "b2").db, t.amount > 0) :=
  ⟨by decide!,
   (C5_positive_amounts_preserved smallExpenseEdit (by decide!)).1 "a1",
   (C5_positive_amounts_preserved smallExpenseEdit (by decide!)).2.1 "c3" 3000 (by decide!),
   (C5_positive_amounts_preserved smallExpenseEdit (by decide!)).2.2 "b2" (by decide!)⟩

/-- A rejection changes nothing but the error message, and the message is the
one of its cause: in `addTransaction` MissingField for an empty field, else
ZeroAmount for an amount of 0, else InsufficientBalance for an Expense above
the balance; in `updateTransaction` MissingField for an empty field, else
InsufficientBalance for an Expense that is above the balance and not 0. -/
theorem rejection_changes_only_error (w : World) (newId : String) (now : ℤ) (id : String) :
    ((w.amount.isFalsy = true ∨ w.description = "") →
      addTransaction w newId now = { w with error := MissingField } ∧
      updateTransaction w id = { w with error := MissingField }) ∧
    (¬ (w.amount.isFalsy = true ∨ w.description = "") →
      (parseFloat w.amount).eqZero = true →
      addTransaction w newId now = { w with error := ZeroAmount }) ∧
    (¬ (w.amount.isFalsy = true ∨ w.description = "") →
      (parseFloat w.amount).eqZero = false →
      w.type = "Expense" → parseFloat w.amount > w.balance →
      addTransaction w newId now = { w with error := InsufficientBalance } ∧
      updateTransaction w id = { w with error := InsufficientBalance }) :=
  ⟨fun h => ⟨addTransaction_missing w newId now h, updateTransaction_missing w id h⟩,
   fun h hz => addTransaction_zero w newId now h hz,
   fun h hz hty hb => ⟨addTransaction_insufficient w newId now h hz hty hb,
     updateTransaction_reject w id h (Or.inl ⟨hty, hb⟩)⟩⟩

/-- C6, the code at the failing input: `updateTransaction` rejects an Expense
whose amount parses to 0, which is not above the balance of 20, and makes no
write, but the message it leaves is the InsufficientBalance one and not the
ZeroAmount one of the error it found; `addTransaction` on the same form leaves
the ZeroAmount message. -/
theorem C6_update_zero_rejection_message :
    (parseFloat zeroExpenseEdit.amount).eqZero = true ∧
    ¬ (parseFloat zeroExpenseEdit.amount > zeroExpenseEdit.balance) ∧
    updateTransaction zeroExpenseEdit "b2"
      = { zeroExpenseEdit with error := InsufficientBalance } ∧
    updateTransaction zeroExpenseEdit "b2" ≠ { zeroExpenseEdit with error := ZeroAmount } ∧
    addTransaction zeroExpenseEdit "c3" 3000 = { zeroExpenseEdit with error := ZeroAmount } := by
  decide!

/-! ### Adding and updating -/

theorem absTotal_append_singleton (l : List Transaction) (t : Transaction) :
    absTotal (l ++ [t]) = absTotal l + |t.amount.toRat| := by
  simp [absTotal]

theorem exactBalance_append_singleton (l : List Transaction) (t : Transaction) :
    exactBalance (l ++ [t]) = exactBalance l + signedAmount t := by
  simp [exactBalance]

theorem exactBalance_int (l : List Transaction) (hint : ∀ t ∈ l, t.amount.isInteger = true) :
    ∃ z : ℤ, exactBalance l = (z : ℚ) := by
  induction l with
  | nil => exact ⟨0, by simp [exactBalance]⟩
  | cons t l ih =>
    obtain ⟨z, hz⟩ := ih (fun x hx => hint x (List.mem_cons_of_mem _ hx))
    obtain ⟨k, hk⟩ := (JSNum.isInteger_iff _).mp (hint t (List.mem_cons_self _ _))
    rw [exactBalance_cons, hz]
    unfold signedAmount
    rw [hk]
    split
    · exact ⟨k + z, by simp [JSNum.toRat]⟩
    · exact ⟨-k + z, by simp [JSNum.toRat]⟩

/-- Adding or subtracting an integer amount to an integer balance does not
round when the absolute values stay below `2 ^ 53`. -/
theorem fin_add_sub_exact (b p : ℤ) (h : |(b : ℚ)| + |(p : ℚ)| < 9007199254740992) :
    JSNum.fin (b : ℚ) + JSNum.fin (p : ℚ) = JSNum.fin ((b : ℚ) + (p : ℚ)) ∧
    JSNum.fin (b : ℚ) - JSNum.fin (p : ℚ) = JSNum.fin ((b : ℚ) - (p : ℚ)) := by
  have h1 : |b + p| < 2 ^ 53 := by
    have : |((b + p : ℤ) : ℚ)| < 9007199254740992 := by
      push_cast; exact lt_of_le_of_lt (abs_add _ _) h
    rw [← Int.cast_abs] at this
    exact_mod_cast this
  have h2 : |b - p| < 2 ^ 53 := by
    have : |((b - p : ℤ) : ℚ)| < 9007199254740992 := by
      push_cast; exact lt_of_le_of_lt (abs_sub _ _) h
    rw [← Int.cast_abs] at this
    exact_mod_cast this
  constructor
  · rw [JSNum.fin_add_fin, ← Int.cast_add, roundDouble_intCast _ h1]
  · rw [JSNum.fin_sub_fin, ← Int.cast_sub, roundDouble_intCast _ h2]

/-- C7, as the code has it: for every refreshed world and every add input that
passes validation, `addTransaction` followed by `fetchTransactions` shows
exactly the previous transactions and one new one, whose amount is the parsed
input and whose description and type are the inputs, and the store holds the
previous documents and the new one; when the stored amounts and the parsed
amount are integers with absolute values totalling less than 2^53, the balance
is the old balance plus the amount for an Income and minus the amount
otherwise. -/
theorem C7_add_then_refresh (w : World) (newId : String) (now : ℤ)
    (hsync : fetchTransactions w = w)
    (hfields : ¬ (w.amount.isFalsy = true ∨ w.description = ""))
    (hvalid : ¬ ((w.type = "Expense" ∧ parseFloat w.amount > w.balance) ∨
      (parseFloat w.amount).eqZero = true)) :
    (fetchTransactions (addTransaction w newId now)).transactions.Perm
      ({ id := newId, amount := parseFloat w.amount, description := w.description,
         type := w.type, date := TimeValue.ms now } :: w.transactions) ∧
    (fetchTransactions (addTransaction w newId now)).db.Perm
      ({ id := newId, amount := parseFloat w.amount, description := w.description,
         type := w.type, date := TimeValue.ms now } :: w.db) ∧
    ((∀ t ∈ w.db, t.amount.isInteger = true) →
      (parseFloat w.amount).isInteger = true →
      absTotal w.db + |(parseFloat w.amount).toRat| < 9007199254740992 →
      (fetchTransactions (addTransaction w newId now)).balance =
        (if w.type = "Income" then w.balance + parseFloat w.amount
         else w.balance - parseFloat w.amount)) := by
  have hz : (parseFloat w.amount).eqZero = false := by
    cases hc : (parseFloat w.amount).eqZero with
    | true => exact absurd (Or.inr hc) hvalid
    | false => rfl
  have hb : ¬ (w.type = "Expense" ∧ parseFloat w.amount > w.balance) :=
    fun hc => hvalid (Or.inl hc)
  have htr : w.transactions = arraySort dateDescending w.db :=
    (congrArg World.transactions hsync).symm
  rw [addTransaction_accept w newId now hfields hz hb]
  refine ⟨?_, List.perm_append_singleton _ _, ?_⟩
  · rw [htr]
    refine (arraySort_perm dateDescending _).trans ?_
    refine List.perm_append_singleton _ _ |>.trans ?_
    exact List.Perm.cons _ (arraySort_perm dateDescending w.db).symm
  · intro hint hamt hbound
    obtain ⟨p, hp⟩ := (JSNum.isInteger_iff _).mp hamt
    obtain ⟨b, hbz⟩ := exactBalance_int w.db hint
    have hpr : (parseFloat w.amount).toRat = (p : ℚ) := by rw [hp]; rfl
    rw [hpr] at hbound
    have hnn : (0 : ℚ) ≤ |(p : ℚ)| := abs_nonneg _
    have hbal : w.balance = JSNum.fin (b : ℚ) := by
      rw [← hsync, fetchTransactions_balance_exact w hint (by linarith), hbz]
    have hle : |(b : ℚ)| ≤ absTotal w.db := by rw [← hbz]; exact abs_exactBalance_le w.db
    obtain ⟨hadd, hsub⟩ := fin_add_sub_exact b p (by linarith)
    have hnew : (fetchTransactions
        { fetchTransactions { w with
            db := addDoc w.db newId (parseFloat w.amount) w.description w.type
              (TimeValue.ms now) }
          with amount := FormValue.str "", description := "", type := "Income",
               error := "" }).balance
        = JSNum.fin (exactBalance (addDoc w.db newId (parseFloat w.amount) w.description
            w.type (TimeValue.ms now))) := by
      refine fetchTransactions_balance_exact _ ?_ ?_
      · intro t ht
        rcases List.mem_append.mp ht with h1 | h1
        · exact hint t h1
        · rw [List.mem_singleton] at h1
          subst h1
          exact hamt
      · show absTotal (w.db ++ [_]) < _
        rw [absTotal_append_singleton]
        show absTotal w.db + |(parseFloat w.amount).toRat| < _
        rw [hpr]
        exact hbound
    rw [hnew]
    unfold addDoc
    rw [exactBalance_append_singleton, hbz, hbal, hp]
    unfold signedAmount
    by_cases hty : w.type = "Income"
    · simp only [hty, if_true]
      rw [hadd]
      rfl
    · simp only [hty, if_false]
      rw [hsub]
      show JSNum.fin ((b : ℚ) + -(p : ℚ)) = JSNum.fin ((b : ℚ) - (p : ℚ))
      rw [sub_eq_add_neg]

/-- C7 fails as stated: with incomes of 0.1 and 0.2 stored the balance is
0.30000000000000004; adding an Income of 0.3 passes validation, and the
refreshed balance is 0.6 while the old balance plus the amount is
0.6000000000000001. -/
theorem C7_counterexample :
    (fetchTransactions tenthsForm = tenthsForm ∧
      ¬ (tenthsForm.amount.isFalsy = true ∨ tenthsForm.description = "") ∧
      ¬ ((tenthsForm.type = "Expense" ∧ parseFloat tenthsForm.amount > tenthsForm.balance) ∨
        (parseFloat tenthsForm.amount).eqZero = true)) ∧
    tenthsForm.type = "Income" ∧
    tenthsForm.balance = parseFloatString "0.30000000000000004" ∧
    (fetchTransactions (addTransaction tenthsForm "t3" 3000)).balance
      = parseFloatString "0.6" ∧
    tenthsForm.balance + parseFloat tenthsForm.amount = parseFloatString "0.6000000000000001" ∧
    (fetchTransactions (addTransaction tenthsForm "t3" 3000)).balance
      ≠ tenthsForm.balance + parseFloat tenthsForm.amount := by
  decide!

theorem C7_add_then_refresh_witness :
    ((fetchTransactions foodForm = foodForm ∧
      ¬ (foodForm.amount.isFalsy = true ∨ foodForm.description = "") ∧
      ¬ ((foodForm.type = "Expense" ∧ parseFloat foodForm.amount > foodForm.balance) ∨
        (parseFloat foodForm.amount).eqZero = true)) ∧
     ((∀ t ∈ foodForm.db, t.amount.isInteger = true) ∧
      (parseFloat foodForm.amount).isInteger = true ∧
      absTotal foodForm.db + |(parseFloat foodForm.amount).toRat| < 9007199254740992)) ∧
    foodForm.db.length = 1 ∧ foodForm.type = "Expense" ∧
    foodForm.balance = JSNum.fin 100 ∧
    (fetchTransactions (addTransaction foodForm "f2" 2000)).balance
      = foodForm.balance - parseFloat foodForm.amount ∧
    (fetchTransactions (addTransaction foodForm "f2" 2000)).balance = JSNum.fin 70 :=
  ⟨by decide!, by decide!, by decide!, by decide!,
   (C7_add_then_refresh foodForm "f2" 2000 (by decide!) (by decide!) (by decide!)).2.2
      (by decide!) (by decide!) (by decide!),
   by decide!⟩

/-- The scenario of the specification: from balance 0, adding Income 100 gives
balance 100, and then adding Expense 30 gives balance 70. -/
theorem add_scenario_balances :
    emptyLedger.balance = JSNum.fin 0 ∧
    (fetchTransactions (addTransaction salaryForm "s1" 1000)).balance = JSNum.fin 100 ∧
    (fetchTransactions (addTransaction foodForm "f2" 2000)).balance = JSNum.fin 70 := by
  decide!

/-- C8: for every update input that passes validation and every id present in
the store, `updateTransaction` leaves the store with the same documents in the
same places: each keeps its id and its date, a document with another id is
unchanged, and the document with that id takes the parsed amount, the
description and the type of the form. -/
theorem C8_update_frame (w : World) (id : String)
    (hfields : ¬ (w.amount.isFalsy = true ∨ w.description = ""))
    (hvalid : ¬ ((w.type = "Expense" ∧ parseFloat w.amount > w.balance) ∨
      (w.type = "Expense" ∧ (parseFloat w.amount).eqZero = true)))
    (hid : ∃ t ∈ w.db, t.id = id) :
    List.Forall₂
      (fun old new : Transaction =>
        new.id = old.id ∧ new.date = old.date ∧
        (old.id ≠ id → new = old) ∧
        (old.id = id → new.amount = parseFloat w.amount ∧
          new.description = w.description ∧ new.type = w.type))
      w.db (updateTransaction w id).db := by
  rw [updateTransaction_accept w id hfields hvalid hid]
  show List.Forall₂ _ w.db (w.db.map _)
  rw [List.forall₂_map_right_iff, List.forall₂_same]
  intro t _
  by_cases h : t.id = id
  · rw [if_pos h]
    exact ⟨rfl, rfl, fun hne => absurd h hne, fun _ => ⟨rfl, rfl, rfl⟩⟩
  · rw [if_neg h]
    exact ⟨rfl, rfl, fun _ => rfl, fun he => absurd he h⟩

theorem C8_update_frame_witness :
    (¬ (smallExpenseEdit.amount.isFalsy = true ∨ smallExpenseEdit.description = "") ∧
      ¬ ((smallExpenseEdit.type = "Expense" ∧
            parseFloat smallExpenseEdit.amount > smallExpenseEdit.balance) ∨
          (smallExpenseEdit.type = "Expense" ∧
            (parseFloat smallExpenseEdit.amount).eqZero = true)) ∧
      ∃ t ∈ smallExpenseEdit.db, t.id = "b2") ∧
    List.Forall₂
      (fun old new : Transaction =>
        new.id = old.id ∧ new.date = old.date ∧
        (old.id ≠ "b2" → new = old) ∧
        (old.id = "b2" → new.amount = parseFloat smallExpenseEdit.amount ∧
          new.description = smallExpenseEdit.description ∧
          new.type = smallExpenseEdit.type))
      smallExpenseEdit.db (updateTransaction smallExpenseEdit "b2").db :=
  ⟨by decide!, C8_update_frame smallExpenseEdit "b2" (by decide!) (by decide!) (by decide!)⟩

/-- C9: there is a refreshed ledger with no error shown and a non-negative
balance, and an update that lowers one of its Expense transactions to a smaller
positive amount, which `updateTransaction` rejects with InsufficientBalance and
without a write: with Income 100 and Expense 80 the balance is 20, the new
amount 50 is above that 20, and the update is rejected although the balance
after it would be 50; lowering the same Expense to 10, which is not above 20,
is accepted. -/
theorem C9_lowering_expense_rejected :
    (∃ (w : World) (t : Transaction),
      fetchTransactions w = w ∧ w.error = "" ∧ w.balance ≥ 0 ∧
      t ∈ w.db ∧ t.type = "Expense" ∧ w.editingId = some t.id ∧ w.type = "Expense" ∧
      ¬ (w.amount.isFalsy = true ∨ w.description = "") ∧
      parseFloat w.amount > 0 ∧ parseFloat w.amount < t.amount ∧
      parseFloat w.amount > w.balance ∧
      updateTransaction w t.id = setError w InsufficientBalance ∧
      (updateTransaction w t.id).error = InsufficientBalance ∧
      (updateTransaction w t.id).db = w.db ∧
      w.balance = JSNum.fin 20 ∧ parseFloat w.amount = JSNum.fin 50 ∧
      totalBalance (w.db.map (fun x =>
        if x.id = t.id then
          { x with amount := parseFloat w.amount, description := w.description,
                   type := w.type }
        else x)) = JSNum.fin 50) ∧
    (smallExpenseEdit.db = lowerExpenseEdit.db ∧
      smallExpenseEdit.balance = lowerExpenseEdit.balance ∧
      parseFloat smallExpenseEdit.amount = JSNum.fin 10 ∧
      (updateTransaction smallExpenseEdit "b2").error = "" ∧
      (updateTransaction smallExpenseEdit "b2").db
        = [sampleIncome, { sampleExpense with amount := JSNum.fin 10 }]) :=
  ⟨⟨lowerExpenseEdit, sampleExpense, by decide!⟩, by decide!⟩


/-! ### Sequences of additions -/

theorem typeOption_value_cases (o : TypeOption) :
    o.value = "Income" ∨ (o.value = "Expense" ∧ ¬ o.value = "Income") := by
  cases o
  · exact Or.inl rfl
  · exact Or.inr ⟨rfl, by decide⟩

theorem stepsTotal_cons (s : FormInput × String × ℤ) (rest : List (FormInput × String × ℤ)) :
    stepsTotal (s :: rest) = (parseFloatString s.1.amount).toRat + stepsTotal rest := by
  simp [stepsTotal]

theorem toRat_pos_of_pos (x : JSNum) (h : x > 0) : 0 < x.toRat ∨ x = JSNum.pinf := by
  cases x with
  | nan => exact absurd h (fun h => h)
  | pinf => exact Or.inr rfl
  | ninf => exact absurd h (fun h => h)
  | fin q => exact Or.inl h

theorem stepsTotal_nonneg (steps : List (FormInput × String × ℤ))
    (hpos : ∀ s ∈ steps, parseFloatString s.1.amount > 0) : 0 ≤ stepsTotal steps := by
  unfold stepsTotal
  apply List.sum_nonneg
  intro x hx
  obtain ⟨s, hs, rfl⟩ := List.mem_map.mp hx
  rcases toRat_pos_of_pos _ (hpos s hs) with h | h
  · exact le_of_lt h
  · rw [h]; exact le_refl _

theorem addStep_exactInv (w : World) (s : FormInput × String × ℤ) (hw : ExactInv w)
    (hint : (parseFloatString s.1.amount).isInteger = true)
    (hpos : parseFloatString s.1.amount > 0)
    (hb : absTotal w.db + (parseFloatString s.1.amount).toRat < 9007199254740992) :
    ExactInv (addStep w s) ∧
    absTotal (addStep w s).db ≤ absTotal w.db + (parseFloatString s.1.amount).toRat := by
  obtain ⟨hbal, hdbint, hnn⟩ := hw
  obtain ⟨p, hp⟩ := (JSNum.isInteger_iff _).mp hint
  have hp0 : (0 : ℚ) < (p : ℚ) := by rw [hp] at hpos; exact hpos
  have hpr : (parseFloatString s.1.amount).toRat = (p : ℚ) := by rw [hp]; rfl
  rw [hpr] at hb ⊢
  have hparse : parseFloat (fillForm w s.1).amount = JSNum.fin (p : ℚ) := hp
  have hdb' : (addStep w s).db = (addTransaction (fillForm w s.1) s.2.1 s.2.2).db := rfl
  have hbal' : ∀ (hi : ∀ t ∈ (addStep w s).db, t.amount.isInteger = true)
      (hlt : absTotal (addStep w s).db < 9007199254740992),
      (addStep w s).balance = JSNum.fin (exactBalance (addStep w s).db) := by
    intro hi hlt
    exact fetchTransactions_balance_exact (addTransaction (fillForm w s.1) s.2.1 s.2.2) hi hlt
  rcases addTransaction_db_cases (fillForm w s.1) s.2.1 s.2.2 with hdb | ⟨_, hacc, hdb⟩
  · have hsame : (addStep w s).db = w.db := by rw [hdb', hdb]; rfl
    have hi : ∀ t ∈ (addStep w s).db, t.amount.isInteger = true := by
      rw [hsame]; exact hdbint
    refine ⟨⟨hbal' hi (by rw [hsame]; linarith), hi, by rw [hsame]; exact hnn⟩, ?_⟩
    rw [hsame]
    linarith
  · have happ : (addStep w s).db = w.db ++
        [{ id := s.2.1, amount := parseFloat (fillForm w s.1).amount,
           description := (fillForm w s.1).description, type := (fillForm w s.1).type,
           date := TimeValue.ms s.2.2 }] := by
      rw [hdb', hdb]; rfl
    have habs : absTotal (addStep w s).db = absTotal w.db + (p : ℚ) := by
      rw [happ, absTotal_append_singleton]
      show absTotal w.db + |(parseFloat (fillForm w s.1).amount).toRat| = _
      rw [hparse]
      show absTotal w.db + |(p : ℚ)| = _
      rw [abs_of_pos hp0]
    have hi : ∀ t ∈ (addStep w s).db, t.amount.isInteger = true := by
      rw [happ]
      intro t ht
      rcases List.mem_append.mp ht with h1 | h1
      · exact hdbint t h1
      · rw [List.mem_singleton] at h1
        subst h1
        exact hint
    have hex : exactBalance (addStep w s).db =
        exactBalance w.db + (if s.1.type.value = "Income" then (p : ℚ) else - (p : ℚ)) := by
      rw [happ, exactBalance_append_singleton]
      show exactBalance w.db +
        (if s.1.type.value = "Income" then (parseFloat (fillForm w s.1).amount).toRat
         else - (parseFloat (fillForm w s.1).amount).toRat) = _
      rw [hparse]
      rfl
    refine ⟨⟨hbal' hi (by rw [habs]; exact hb), hi, ?_⟩, le_of_eq habs⟩
    rw [hex]
    rcases typeOption_value_cases s.1.type with hty | ⟨hty, hni⟩
    · rw [if_pos hty]
      linarith
    · rw [if_neg hni]
      have hle : (p : ℚ) ≤ exactBalance w.db := by
        by_contra hlt
        refine hacc ⟨hty, ?_⟩
        rw [hparse]
        show w.balance < JSNum.fin (p : ℚ)
        rw [hbal]
        exact (JSNum.fin_lt_fin _ _).mpr (not_le.mp hlt)
      linarith

theorem runAdds_exactInv (steps : List (FormInput × String × ℤ)) (w : World)
    (hw : ExactInv w)
    (hint : ∀ s ∈ steps, (parseFloatString s.1.amount).isInteger = true)
    (hpos : ∀ s ∈ steps, parseFloatString s.1.amount > 0)
    (hb : absTotal w.db + stepsTotal steps < 9007199254740992) :
    ExactInv (runAdds w steps) := by
  induction steps generalizing w with
  | nil => exact hw
  | cons s rest ih =>
    have hrest : ∀ x ∈ rest, parseFloatString x.1.amount > 0 :=
      fun x hx => hpos x (List.mem_cons_of_mem _ hx)
    have hnn := stepsTotal_nonneg rest hrest
    rw [stepsTotal_cons] at hb
    obtain ⟨hinv, hle⟩ := addStep_exactInv w s hw (hint s (List.mem_cons_self _ _))
      (hpos s (List.mem_cons_self _ _)) (by linarith)
    exact ih (addStep w s) hinv (fun x hx => hint x (List.mem_cons_of_mem _ hx)) hrest
      (by linarith)

theorem emptyLedger_exactInv : ExactInv emptyLedger :=
  ⟨by decide!, fun _ ht => absurd ht (List.not_mem_nil _), by decide!⟩

theorem stepsTotal_take_le (steps : List (FormInput × String × ℤ))
    (hpos : ∀ s ∈ steps, parseFloatString s.1.amount > 0) (k : ℕ) :
    stepsTotal (steps.take k) ≤ stepsTotal steps := by
  have hsplit : stepsTotal steps = stepsTotal (steps.take k) + stepsTotal (steps.drop k) := by
    conv_lhs => rw [← List.take_append_drop k steps]
    simp [stepsTotal]
  have hnn := stepsTotal_nonneg (steps.drop k) (fun s hs => hpos s (List.mem_of_mem_drop hs))
  linarith

/-- C10, as the code has it: starting from the empty ledger, for every sequence
of submissions through the Add button whose amounts parse to positive integers
totalling less than 2^53, the balance after every step is greater than or
equal to 0. -/
theorem C10_add_sequence_balance_nonneg (steps : List (FormInput × String × ℤ))
    (hint : ∀ s ∈ steps, (parseFloatString s.1.amount).isInteger = true)
    (hpos : ∀ s ∈ steps, parseFloatString s.1.amount > 0)
    (hbound : stepsTotal steps < 9007199254740992) (k : Nat) :
    (runAdds emptyLedger (steps.take k)).balance ≥ 0 := by
  have hle := stepsTotal_take_le steps hpos k
  have h0 : absTotal emptyLedger.db = 0 := by simp [emptyLedger, fetchTransactions, initialWorld, absTotal]
  obtain ⟨hbal, _, hnn⟩ := runAdds_exactInv (steps.take k) emptyLedger emptyLedger_exactInv
    (fun s hs => hint s (List.mem_of_mem_take hs))
    (fun s hs => hpos s (List.mem_of_mem_take hs))
    (by rw [h0]; linarith)
  rw [hbal]
  exact (JSNum.fin_le_fin _ _).mpr hnn

/-- C10 fails as stated: the amounts 0.1, 0.2, 0.1 and 0.4 all parse to positive
numbers; after the three incomes the balance is 0.4, so the Expense of 0.4 is
not above it and is stored, and the balance fetched after it is -2^-55, which
is not greater than or equal to 0. -/
theorem C10_counterexample :
    (∀ s ∈ tenthsSteps, parseFloatString s.1.amount > 0) ∧
    (runAdds emptyLedger (tenthsSteps.take 3)).balance = parseFloatString "0.4" ∧
    (runAdds emptyLedger tenthsSteps).db.length = 4 ∧
    (runAdds emptyLedger tenthsSteps).balance = JSNum.fin (-1 / 36028797018963968) ∧
    ¬ (runAdds emptyLedger (tenthsSteps.take 4)).balance ≥ 0 := by
  decide!

theorem C10_add_sequence_witness :
    ((∀ s ∈ sampleSteps, (parseFloatString s.1.amount).isInteger = true) ∧
      (∀ s ∈ sampleSteps, parseFloatString s.1.amount > 0) ∧
      stepsTotal sampleSteps < 9007199254740992) ∧
    (runAdds emptyLedger (sampleSteps.take 3)).balance ≥ 0 ∧
    (runAdds emptyLedger (sampleSteps.take 3)).balance = JSNum.fin 70 :=
  ⟨by decide!,
   C10_add_sequence_balance_nonneg sampleSteps (by decide!) (by decide!) (by decide!) 3,
   by decide!⟩

end TransactionList
